import Mathlib

/-!
Verification development for the omni-link-chess command engine
(`chess_link/omnilink.py` and its duplicate `chess_oapi/oapi.py`).

The Python engine is embedded shallowly:
  * `_normalize_separators`  → `normalizeSeparators`
  * the compiled `re` pattern `^lit(g1)lit(g2)...lit$` (IGNORECASE) →
    a `List Chunk` of escaped-literal spans and capture-group regexes,
    matched by `matchChunks` (greedy longest-first split, which is the
    backtracking order of Python's `re` for this shape of pattern);
    sub-regexes are interpreted via Brzozowski derivatives, with the
    IGNORECASE flag baked into character comparison
  * `TypeRegistry`, `_parse_token`, `_compile_template`, `OmniLinkEngine`
    (`parse`, `handle`, `add_template`, history deque, metrics counter)
    are translated definition by definition below.

Impure details are made explicit: the `time.time()` reading becomes a
`ts` argument to `handle`; exceptions become `Except String`; Python
floats are represented opaquely by their source text (no claim inspects
a float value).  Middleware callbacks can only raise (which the source
logs and swallows) or mutate nothing observable in this model, so
`handle` does not consume them.
-/

/-- Python `\s` (ASCII part, which is all that normalized inputs contain). -/
def pyIsSpace (c : Char) : Bool :=
  c = ' ' || c = '\t' || c = '\n' || c = '\r' || c = Char.ofNat 11 || c = Char.ofNat 12

/-- Drop trailing characters satisfying `p`. -/
def dropEndWhile (p : Char → Bool) (l : List Char) : List Char :=
  (l.reverse.dropWhile p).reverse

/-- Python `str.strip()`. -/
def pyStrip (l : List Char) : List Char :=
  dropEndWhile pyIsSpace (l.dropWhile pyIsSpace)

/-- Replace every run of whitespace by a single underscore
(the combination of `re.sub(r"\s+", " ", ·)` and `.replace(" ", "_")`
from `_normalize_separators`; input is already stripped).  The fuel is
an upper bound on the input length, so the wrapper below never exhausts
it (each step consumes at least one character). -/
def collapseRunsF : Nat → List Char → List Char
  | 0, _ => []
  | _, [] => []
  | fuel + 1, c :: rest =>
    if pyIsSpace c then '_' :: collapseRunsF fuel (rest.dropWhile pyIsSpace)
    else c :: collapseRunsF fuel rest

def collapseRuns (l : List Char) : List Char :=
  collapseRunsF l.length l

/-- `_normalize_separators`: strip, collapse whitespace runs, spaces → `_`.
Case is deliberately NOT altered. -/
def normalizeSeparators (s : String) : String :=
  String.mk (collapseRuns (pyStrip s.data))

/-! ## Regex semantics (shallow embedding of the compiled `re` pattern) -/

/-- One item of a character class. -/
inductive CItem where
  | ch : Char → CItem
  | range : Char → Char → CItem
deriving DecidableEq, Repr

/-- Regex AST: the denotation of the regex strings the source feeds to
`re.compile`.  `cls neg items` is `[items]` / `[^items]`, `anych` is `.`. -/
inductive Regex where
  | emp : Regex
  | eps : Regex
  | lit : Char → Regex
  | anych : Regex
  | cls : Bool → List CItem → Regex
  | cat : Regex → Regex → Regex
  | alt : Regex → Regex → Regex
  | star : Regex → Regex
deriving DecidableEq, Repr

/-- Case-insensitive character equality (the IGNORECASE flag the source
always compiles with). -/
def icEq (a b : Char) : Bool := a.toLower == b.toLower

/-- Does a class item match `c`, case-insensitively? -/
def citemMatch (it : CItem) (c : Char) : Bool :=
  match it with
  | .ch d => icEq d c
  | .range lo hi =>
    (decide (lo ≤ c) && decide (c ≤ hi))
    || (decide (lo ≤ c.toLower) && decide (c.toLower ≤ hi))
    || (decide (lo ≤ c.toUpper) && decide (c.toUpper ≤ hi))

def Regex.nullable : Regex → Bool
  | .emp => false
  | .eps => true
  | .lit _ => false
  | .anych => false
  | .cls _ _ => false
  | .cat a b => a.nullable && b.nullable
  | .alt a b => a.nullable || b.nullable
  | .star _ => true

/-- Smart concatenation (language-preserving simplification used only to
keep derivative terms small). -/
def mkCat : Regex → Regex → Regex
  | .emp, _ => .emp
  | _, .emp => .emp
  | .eps, b => b
  | a, .eps => a
  | a, b => .cat a b

/-- Smart alternation. -/
def mkAlt : Regex → Regex → Regex
  | .emp, b => b
  | a, .emp => a
  | a, b => .alt a b

/-- Brzozowski derivative with respect to one character. -/
def Regex.deriv (r : Regex) (c : Char) : Regex :=
  match r with
  | .emp => .emp
  | .eps => .emp
  | .lit d => if icEq d c then .eps else .emp
  | .anych => if c = '\n' then .emp else .eps
  | .cls neg items => if (items.any (fun it => citemMatch it c)) = neg then .emp else .eps
  | .cat a b =>
    if a.nullable then mkAlt (mkCat (a.deriv c) b) (b.deriv c)
    else mkCat (a.deriv c) b
  | .alt a b => mkAlt (a.deriv c) (b.deriv c)
  | .star a => mkCat (a.deriv c) (.star a)

/-- Does `r` match the whole character list `s`? -/
def rmatch (r : Regex) (s : List Char) : Bool :=
  (s.foldl Regex.deriv r).nullable

/-! ## Parsing regex source strings

The registry stores regexes as strings, exactly as the Python source does;
`re.compile` of the assembled pattern is modeled by interpreting each
capture-group's regex string into the AST above.  The interpreter covers
the regex dialect actually used by the source (literals, escapes,
character classes with ranges and negation, `(?:...)` groups, `|`,
`* + ?` and `{n}` / `{n,m}` repetition, `.`); a string outside this
subset makes compilation fail, as an invalid regex would. -/

def escRegex (e : Char) : Regex :=
  if e = 'd' then .cls false [.range '0' '9']
  else if e = 'D' then .cls true [.range '0' '9']
  else if e = 'w' then .cls false [.range 'a' 'z', .range 'A' 'Z', .range '0' '9', .ch '_']
  else if e = 'W' then .cls true [.range 'a' 'z', .range 'A' 'Z', .range '0' '9', .ch '_']
  else if e = 's' then .cls false [.ch ' ', .ch '\t', .ch '\n', .ch '\r', .ch (Char.ofNat 11), .ch (Char.ofNat 12)]
  else if e = 'S' then .cls true [.ch ' ', .ch '\t', .ch '\n', .ch '\r', .ch (Char.ofNat 11), .ch (Char.ofNat 12)]
  else .lit e

/-- Parse the body of a character class up to the closing `]`. -/
def parseClassBody : Nat → List Char → Option (List CItem × List Char)
  | 0, _ => none
  | _, [] => none
  | _ + 1, ']' :: rest => some ([], rest)
  | fuel + 1, '\\' :: e :: rest =>
    (parseClassBody fuel rest).map (fun p => (CItem.ch e :: p.1, p.2))
  | fuel + 1, c :: '-' :: d :: rest =>
    if d = ']' then
      (parseClassBody fuel (']' :: rest)).map
        (fun p => (CItem.ch c :: CItem.ch '-' :: p.1, p.2))
    else
      (parseClassBody fuel rest).map (fun p => (CItem.range c d :: p.1, p.2))
  | fuel + 1, c :: rest =>
    (parseClassBody fuel rest).map (fun p => (CItem.ch c :: p.1, p.2))

/-- `n`-fold repetition. -/
def repN : Nat → Regex → Regex
  | 0, _ => .eps
  | n + 1, r => .cat r (repN n r)

/-- Up to `n` optional repetitions. -/
def optN : Nat → Regex → Regex
  | 0, _ => .eps
  | n + 1, r => .cat (.alt r .eps) (optN n r)

def natVal (ds : List Char) : Nat :=
  ds.foldl (fun n c => n * 10 + (c.toNat - 48)) 0

/-- Consume an optional non-greedy marker (language-equivalent here). -/
def skipNG (l : List Char) : List Char :=
  match l with
  | '?' :: rest => rest
  | _ => l

/-- Apply postfix repetition operators to an atom. -/
def parsePostOps (r : Regex) (l : List Char) : Option (Regex × List Char) :=
  match l with
  | '*' :: rest => some (.star r, skipNG rest)
  | '+' :: rest => some (.cat r (.star r), skipNG rest)
  | '?' :: rest => some (.alt r .eps, skipNG rest)
  | '{' :: rest =>
    let ds := rest.takeWhile Char.isDigit
    if ds.isEmpty then some (r, l)
    else
      match rest.drop ds.length with
      | '}' :: rest2 => some (repN (natVal ds) r, skipNG rest2)
      | ',' :: rest2 =>
        let ds2 := rest2.takeWhile Char.isDigit
        match rest2.drop ds2.length with
        | '}' :: rest3 =>
          some (.cat (repN (natVal ds) r) (optN (natVal ds2 - natVal ds) r), skipNG rest3)
        | _ => none
      | _ => none
  | _ => some (r, l)

/-- Close a parenthesized group. -/
def groupTail : Option (Regex × List Char) → Option (Regex × List Char)
  | some (r, ')' :: rest) => some (r, rest)
  | _ => none

/-- Concatenation that drops a trailing ε (cosmetic only). -/
def mkCatP (a b : Regex) : Regex :=
  match b with
  | .eps => a
  | _ => .cat a b

mutual

def parseAltF : Nat → List Char → Option (Regex × List Char)
  | 0, _ => none
  | fuel + 1, l =>
    match parseCatF fuel l with
    | none => none
    | some (a, r) =>
      match r with
      | '|' :: rest =>
        match parseAltF fuel rest with
        | some (b, r2) => some (.alt a b, r2)
        | none => none
      | _ => some (a, r)

def parseCatF : Nat → List Char → Option (Regex × List Char)
  | 0, _ => none
  | fuel + 1, l =>
    match l with
    | [] => some (.eps, [])
    | ')' :: _ => some (.eps, l)
    | '|' :: _ => some (.eps, l)
    | _ =>
      match parseAtomF fuel l with
      | none => none
      | some (a, r1) =>
        match parsePostOps a r1 with
        | none => none
        | some (a2, r2) =>
          match parseCatF fuel r2 with
          | some (b, r3) => some (mkCatP a2 b, r3)
          | none => none

def parseAtomF : Nat → List Char → Option (Regex × List Char)
  | 0, _ => none
  | fuel + 1, l =>
    match l with
    | '[' :: '^' :: rest =>
      (parseClassBody (rest.length + 1) rest).map (fun p => (Regex.cls true p.1, p.2))
    | '[' :: rest =>
      (parseClassBody (rest.length + 1) rest).map (fun p => (Regex.cls false p.1, p.2))
    | '(' :: '?' :: ':' :: rest => groupTail (parseAltF fuel rest)
    | '(' :: rest => groupTail (parseAltF fuel rest)
    | '\\' :: e :: rest => some (escRegex e, rest)
    | '.' :: rest => some (.anych, rest)
    | c :: rest =>
      if c = '|' ∨ c = ')' ∨ c = '*' ∨ c = '+' ∨ c = '?' then none
      else some (.lit c, rest)
    | [] => none

end

/-- Interpret a regex source string (the model of `re.compile` on one
capture group's sub-pattern). -/
def parseRegexStr (s : String) : Option Regex :=
  match parseAltF (4 * s.length + 16) s.data with
  | some (r, []) => some r
  | _ => none

/-! ## The compiled matcher

`_compile_template` assembles `^esc(lit0)(g1)esc(lit1)(g2)...esc(litn)$`.
A `Chunk.lit` is a `re.escape`d literal span (matched case-insensitively,
IGNORECASE); a `Chunk.grp` is one capturing group.  `matchChunks` must
consume the entire input (the `^`/`$` anchors) and returns the captured
group strings; groups are tried greedily longest-first, which is Python's
backtracking order for the greedy sub-patterns this engine generates. -/

inductive Chunk where
  | lit : String → Chunk
  | grp : Regex → Chunk
deriving DecidableEq, Repr

/-- Case-insensitive "starts with". -/
def icStarts : List Char → List Char → Bool
  | [], _ => true
  | _ :: _, [] => false
  | a :: as, b :: bs => icEq a b && icStarts as bs

/-- Try capture lengths `k, k-1, ..., 0` (greedy). -/
def tryGroupWith (r : Regex) (input : List Char)
    (matchRest : List Char → Option (List String)) : Nat → Option (List String)
  | 0 =>
    if rmatch r [] then
      match matchRest input with
      | some caps => some (String.mk [] :: caps)
      | none => none
    else none
  | k + 1 =>
    if rmatch r (input.take (k + 1)) then
      match matchRest (input.drop (k + 1)) with
      | some caps => some (String.mk (input.take (k + 1)) :: caps)
      | none => tryGroupWith r input matchRest k
    else tryGroupWith r input matchRest k

/-- Full anchored match of the chunk list against the input, producing
the list of captured strings in group order. -/
def matchChunks : List Chunk → List Char → Option (List String)
  | [], input => if input.isEmpty then some [] else none
  | Chunk.lit s :: rest, input =>
    if icStarts s.data input then matchChunks rest (input.drop s.data.length)
    else none
  | Chunk.grp r :: rest, input =>
    tryGroupWith r input (fun inp => matchChunks rest inp) input.length

/-! ## Runtime values

Python is untyped; the values the engine actually produces are strings,
ints, bools, floats, `None` and dicts.  A float is represented opaquely
by the text it was parsed from (no claim inspects IEEE behaviour). -/

inductive Value where
  | vstr : String → Value
  | vint : Int → Value
  | vbool : Bool → Value
  | vfloat : String → Value
  | vnone : Value
  | vdict : List (String × Value) → Value

/-- A type converter: receives the captured string and returns a typed
value or raises (becomes `Except.error` with the exception message). -/
abbrev TypeConverter := String → Except String Value

/-- Python `str.lower()` (ASCII part). -/
def pyLower (s : String) : String :=
  String.mk (s.data.map Char.toLower)

def isDigits (l : List Char) : Bool :=
  !l.isEmpty && l.all Char.isDigit

def applySign (neg : Bool) (n : Nat) : Int :=
  if neg then -(n : Int) else (n : Int)

/-- No two adjacent underscores. -/
def noDoubleUS : List Char → Bool
  | a :: b :: r => !(a = '_' && b = '_') && noDoubleUS (b :: r)
  | _ => true

/-- Python `int(s)`: optional surrounding whitespace and sign, then
digits, with single underscores allowed between digits. -/
def pyIntConv : TypeConverter := fun s =>
  let t := pyStrip s.data
  let (neg, u) :=
    match t with
    | '-' :: r => (true, r)
    | '+' :: r => (false, r)
    | _ => (false, t)
  if !u.isEmpty && u.all (fun c => c.isDigit || c = '_')
      && !(u.headD ' ' = '_') && !(u.getLastD ' ' = '_') && noDoubleUS u then
    .ok (.vint (applySign neg (natVal (u.filter Char.isDigit))))
  else .error ("invalid literal for int() with base 10: " ++ s)

/-- Split an (already stripped, sign-removed) float literal into integer
and fractional digit parts; `none` when `float(s)` would raise.
(Exponent and inf/nan forms are outside the engine's regexes and are not
modeled.) -/
def floatParts (l : List Char) : Option (Bool × List Char × List Char) :=
  let (neg, u) :=
    match l with
    | '-' :: r => (true, r)
    | '+' :: r => (false, r)
    | _ => (false, l)
  let ip := u.takeWhile Char.isDigit
  match u.drop ip.length with
  | [] => if ip.isEmpty then none else some (neg, ip, [])
  | '.' :: w =>
    let fp := w.takeWhile Char.isDigit
    if !(w.drop fp.length).isEmpty then none
    else if ip.isEmpty && fp.isEmpty then none
    else some (neg, ip, fp)
  | _ => none

/-- Python `float(s)` (value kept as its source text). -/
def pyFloatConv : TypeConverter := fun s =>
  match floatParts (pyStrip s.data) with
  | some _ => .ok (.vfloat (String.mk (pyStrip s.data)))
  | none => .error ("could not convert string to float: " ++ s)

/-- `-?\d+` full match (the test `_num_conv` performs before `int(s)`). -/
def fullIntMatch (l : List Char) : Bool :=
  match l with
  | '-' :: r => isDigits r
  | _ => isDigits l

def intOfSimple (l : List Char) : Int :=
  match l with
  | '-' :: r => applySign true (natVal r)
  | _ => applySign false (natVal l)

/-- `_num_conv`: int if the text is an integer literal, else float,
collapsed back to int when the float has no fractional part. -/
def numConv : TypeConverter := fun s =>
  if fullIntMatch s.data then .ok (.vint (intOfSimple s.data))
  else
    match floatParts (pyStrip s.data) with
    | some (neg, ip, fp) =>
      if fp.all (fun c => c = '0') then .ok (.vint (applySign neg (natVal ip)))
      else .ok (.vfloat (String.mk (pyStrip s.data)))
    | none => .error ("could not convert string to float: " ++ s)

/-- `lambda s: s.lower() in ("true", "1")`. -/
def boolConv : TypeConverter := fun s =>
  .ok (.vbool (pyLower s == "true" || pyLower s == "1"))

/-! ## TypeRegistry

Stores `(regex-string, optional converter)` under the lower-cased name;
re-registering a name overwrites it (the newest binding shadows). -/

structure TypeRegistry where
  types : List (String × String × Option TypeConverter)

def lookupT : List (String × String × Option TypeConverter) → String →
    Option (String × Option TypeConverter)
  | [], _ => none
  | (k, rx, cv) :: rest, n => if k = n then some (rx, cv) else lookupT rest n

/-- `TypeRegistry.register`: store/overwrite under the lower-cased name. -/
def TypeRegistry.register (reg : TypeRegistry) (name rx : String)
    (conv : Option TypeConverter) : TypeRegistry :=
  { types := (pyLower name, rx, conv) :: reg.types }

/-- `TypeRegistry.get`: case-insensitive lookup. -/
def TypeRegistry.get (reg : TypeRegistry) (name : String) :
    Option (String × Option TypeConverter) :=
  lookupT reg.types (pyLower name)

/-- `TypeRegistry()` with `_install_defaults` applied, in source order. -/
def defaultRegistry : TypeRegistry :=
  TypeRegistry.mk []
    |>.register ("alpha") ("[A-Za-z]+") none
    |>.register ("letters") ("[A-Za-z]+") none
    |>.register ("word") ("[A-Za-z]+") none
    |>.register ("lower") ("[a-z]+") none
    |>.register ("upper") ("[A-Z]+") none
    |>.register ("slug") ("[A-Za-z0-9_-]+") none
    |>.register ("alnum") ("[A-Za-z0-9]+") none
    |>.register ("alphanumeric") ("[A-Za-z0-9]+") none
    |>.register ("int") ("-?\\d+") (some pyIntConv)
    |>.register ("float") ("-?\\d+(?:\\.\\d+)?") (some pyFloatConv)
    |>.register ("num") ("-?\\d+(?:\\.\\d+)?") (some numConv)
    |>.register ("digit") ("\\d") (some pyIntConv)
    |>.register ("digits") ("\\d+") (some pyIntConv)
    |>.register ("bool") ("(?:true|false|0|1)") (some boolConv)
    |>.register ("uuid") ("[0-9a-fA-F]{8}-[0-9a-fA-F]{4}-[1-5][0-9a-fA-F]{3}-[89abAB][0-9a-fA-F]{3}-[0-9a-fA-F]{12}") none
    |>.register ("date") ("\\d{4}-\\d{2}-\\d{2}") none
    |>.register ("time") ("\\d{2}:\\d{2}(?::\\d{2})?") none
    |>.register ("datetime") ("\\d{4}-\\d{2}-\\d{2}T\\d{2}:\\d{2}(?::\\d{2})?Z?") none
    |>.register ("any") (".+") none

/-! ## Template tokenization and token parsing -/

/-- `_DEFAULT_TOKEN_RX = r"[^_]+"` — stops at underscore. -/
def defaultTokenRx : String := "[^_]+"

/-- A span of the normalized template: literal text or the inner
contents of one `[...]` token (`_TOKEN_PAT = \[([^\]]+)\]`: contents are
the maximal non-empty run of non-`]` characters after a `[`). -/
inductive TChunk where
  | lit : List Char → TChunk
  | tok : List Char → TChunk
deriving DecidableEq, Repr

/-- Scan for `_TOKEN_PAT` matches exactly as `finditer` does: at each
`[`, the contents are the maximal run of non-`]` characters; the match
succeeds only when that run is non-empty and followed by `]`; otherwise
scanning resumes at the next character. -/
def tokenizeAuxF : Nat → List Char → List Char → List TChunk
  | 0, acc, _ => [TChunk.lit acc.reverse]
  | _, acc, [] => [TChunk.lit acc.reverse]
  | fuel + 1, acc, c :: rest =>
    if c = '[' then
      let content := rest.takeWhile (fun x => x ≠ ']')
      if 0 < content.length ∧ content.length < rest.length then
        TChunk.lit acc.reverse :: TChunk.tok content ::
          tokenizeAuxF fuel [] (rest.drop (content.length + 1))
      else tokenizeAuxF fuel (c :: acc) rest
    else tokenizeAuxF fuel (c :: acc) rest

def tokenizeAux (acc : List Char) (l : List Char) : List TChunk :=
  tokenizeAuxF l.length acc l

def startsWithC (c : Char) : List Char → Bool
  | x :: _ => x = c
  | [] => false

def endsWithC (c : Char) (l : List Char) : Bool :=
  match l.getLast? with
  | some x => x = c
  | none => false

/-- Split at the first `:`(Python `token.split(":", 1)`). -/
def splitFirstColon : List Char → Option (List Char × List Char)
  | [] => none
  | c :: rest =>
    if c = ':' then some ([], rest)
    else (splitFirstColon rest).map (fun p => (c :: p.1, p.2))

/-- `left or None`. -/
def strOpt (l : List Char) : Option String :=
  if l.isEmpty then none else some (String.mk l)

/-- `_parse_token`: returns `(name, type_name, regex_override)`. -/
def parseToken (raw : List Char) : Option String × Option String × Option String :=
  let token := pyStrip raw
  if startsWithC '/' token && endsWithC '/' token && decide (2 < token.length) then
    (none, none, some (String.mk (token.drop 1).dropLast))
  else
    match splitFirstColon token with
    | some (left0, right0) =>
      let left := pyStrip left0
      let right := pyStrip right0
      if startsWithC '/' right && endsWithC '/' right && decide (2 < right.length) then
        (strOpt left, none, some (String.mk (right.drop 1).dropLast))
      else (strOpt left, strOpt right, none)
    | none =>
      if token.isEmpty then (none, none, none)
      else (some (String.mk token), none, none)

/-- An apostrophe, built numerically so the message text matches the
source's `f"Unknown type '{typ}' in template: {template}"`. -/
def pyQuote : String := String.singleton (Char.ofNat 39)

def unknownTypeMsg (t tmpl : String) : String :=
  "Unknown type " ++ pyQuote ++ t ++ pyQuote ++ " in template: " ++ tmpl

/-- Synthetic name assignment: `name = f"var{len(var_names) + 1}"` when
the token has no name; `idx` is the number of captures already seen. -/
def nameOfTok (idx : Nat) (content : List Char) : String :=
  match (parseToken content).1 with
  | some n => n
  | none => "var" ++ toString (idx + 1)

/-- The regex string chosen for one token (`rx_override`, else the
registered type's regex — raising on an unknown type —, else the
default token regex). -/
def capRxOf (reg : TypeRegistry) (tmpl : String) (content : List Char) :
    Except String String :=
  match parseToken content with
  | (_, _, some rx) => .ok rx
  | (_, some t, none) =>
    match reg.get t with
    | some (rx, _) => .ok rx
    | none => .error (unknownTypeMsg t tmpl)
  | (_, none, none) => .ok defaultTokenRx

/-- A pattern piece before regex interpretation: escaped literal or one
capture group's regex source string. -/
inductive ChunkS where
  | lit : String → ChunkS
  | grpS : String → ChunkS
deriving DecidableEq, Repr

/-- The compile loop of `_compile_template`: walk the token stream,
accumulating pattern pieces, capture names and capture type names. -/
def compileToks (reg : TypeRegistry) (tmpl : String) :
    List TChunk → List ChunkS → List String → List (Option String) →
    Except String (List ChunkS × List String × List (Option String))
  | [], accC, accN, accT => .ok (accC.reverse, accN.reverse, accT.reverse)
  | TChunk.lit s :: rest, accC, accN, accT =>
    compileToks reg tmpl rest (ChunkS.lit (String.mk s) :: accC) accN accT
  | TChunk.tok content :: rest, accC, accN, accT =>
    match capRxOf reg tmpl content with
    | .error msg => .error msg
    | .ok rx =>
      compileToks reg tmpl rest (ChunkS.grpS rx :: accC)
        (nameOfTok accN.length content :: accN)
        ((parseToken content).2.1 :: accT)

/-- Interpret the assembled pattern pieces (the model of the final
`re.compile("^" + "".join(pieces) + "$", re.IGNORECASE)`). -/
def resolveChunks : List ChunkS → Except String (List Chunk)
  | [] => .ok []
  | ChunkS.lit s :: rest => (resolveChunks rest).map (fun cs => Chunk.lit s :: cs)
  | ChunkS.grpS rx :: rest =>
    match parseRegexStr rx with
    | some r => (resolveChunks rest).map (fun cs => Chunk.grp r :: cs)
    | none => .error ("unsupported regex: " ++ rx)

/-- `CompiledPattern`: original template, compiled matcher, capture
names, capture type names, normalized template text. -/
structure CompiledPattern where
  template : String
  chunks : List Chunk
  var_names : List String
  var_types : List (Option String)
  text : String
deriving Repr

/-- `_compile_template`. -/
def compileTemplate (template : String) (reg : TypeRegistry) :
    Except String CompiledPattern :=
  let norm := normalizeSeparators template
  match compileToks reg template (tokenizeAux [] norm.data) [] [] [] with
  | .error msg => .error msg
  | .ok (cs, names, typs) =>
    match resolveChunks cs with
    | .error msg => .error msg
    | .ok chunks =>
      .ok { template := template, chunks := chunks, var_names := names,
            var_types := typs, text := norm }

/-! ## Python-dict operations (insertion-ordered, overwrite keeps position) -/

/-- `d[k] = v` on a Python dict represented as an ordered association
list: replace in place when the key exists, else append. -/
def dinsert (d : List (String × Value)) (k : String) (v : Value) :
    List (String × Value) :=
  if d.any (fun p => p.1 == k) then
    d.map (fun p => bif p.1 == k then (k, v) else p)
  else d ++ [(k, v)]

/-- `d.get(k)` (first binding wins; dicts built by `dinsert` have unique
keys). -/
def dlookup : List (String × Value) → String → Option Value
  | [], _ => none
  | (k0, v) :: rest, n => bif k0 == n then some v else dlookup rest n

/-! ## Engine -/

/-- The `evt` dict built by `handle` (also the content of the `Event`
dataclass appended to history). -/
structure EventD where
  command : String
  text : String
  template : Option String
  normalized_template : Option String
  vars : List (String × Value)
  meta : List (String × Value)
  timestamp : Nat

abbrev Predicate := EventD → Except String Bool
abbrev Handler := EventD → Except String Value
abbrev Middleware := EventD → Except String Unit

/-- Engine state (`OmniLinkEngine.__init__` fields).  The metrics
`Counter` is a total function from counter name to count. -/
structure Engine where
  types : TypeRegistry
  compiled : List CompiledPattern
  templates : List String
  handlers : List (Predicate × Handler)
  beforeMW : List Middleware
  afterMW : List Middleware
  metrics : String → Nat
  history : List EventD
  keepHistory : Nat

/-- A freshly constructed engine with no templates
(`keep` is the `keep_history` argument, default 200 at call sites). -/
def Engine.empty (types : TypeRegistry) (keep : Nat) : Engine :=
  { types := types, compiled := [], templates := [], handlers := [],
    beforeMW := [], afterMW := [], metrics := fun _ => 0, history := [],
    keepHistory := keep }

/-- `add_template`: compile first, then append; a compile failure leaves
the engine untouched and surfaces the exception message. -/
def Engine.addTemplate (e : Engine) (t : String) : Engine × Option String :=
  match compileTemplate t e.types with
  | .error msg => (e, some msg)
  | .ok cp =>
    ({ e with compiled := e.compiled ++ [cp], templates := e.templates ++ [t] }, none)

/-- `OmniLinkEngine(patterns, types, keep_history)`: add each template,
propagating the first compile failure. -/
def Engine.init (patterns : List String) (types : TypeRegistry) (keep : Nat) :
    Except String Engine :=
  patterns.foldlM
    (fun e t =>
      match e.addTemplate t with
      | (e2, none) => .ok e2
      | (_, some m) => .error m)
    (Engine.empty types keep)

/-- The scan loop of `parse`: first compiled pattern whose matcher fully
matches the normalized text, with its captured group strings. -/
def firstMatch : List CompiledPattern → List Char → Option (CompiledPattern × List String)
  | [], _ => none
  | cp :: rest, s =>
    match matchChunks cp.chunks s with
    | some caps => some (cp, caps)
    | none => firstMatch rest s

/-- Best-effort conversion of one captured value: look the type up in
the registry NOW (at parse time), run its converter if any, and keep the
raw string when the converter raises. -/
def convertVal (reg : TypeRegistry) (typ : Option String) (raw : String) : Value :=
  match typ with
  | none => .vstr raw
  | some t =>
    match reg.get t with
    | some (_, some conv) =>
      match conv raw with
      | .ok v => v
      | .error _ => .vstr raw
    | _ => .vstr raw

/-- The `for name, typ, val in zip(...)` loop building the vars dict
(`zip` truncates at the shortest list). -/
def buildVars (reg : TypeRegistry) :
    List String → List (Option String) → List String →
    List (String × Value) → List (String × Value)
  | n :: ns, t :: ts, v :: vs, acc =>
    buildVars reg ns ts vs (dinsert acc n (convertVal reg t v))
  | _, _, _, acc => acc

/-- The dict returned by `parse`. -/
structure ParseResult where
  ok : Bool
  template : Option String
  normalized_template : Option String
  vars : List (String × Value)

/-- `OmniLinkEngine.parse`. -/
def Engine.parse (e : Engine) (text : String) : ParseResult :=
  match firstMatch e.compiled (normalizeSeparators text).data with
  | none => { ok := false, template := none, normalized_template := none, vars := [] }
  | some (cp, caps) =>
    { ok := true, template := some cp.template, normalized_template := some cp.text,
      vars := buildVars e.types cp.var_names cp.var_types caps [] }

/-- The `evt` dict `handle` builds (`ts` is the `time.time()` reading). -/
def Engine.mkEvent (e : Engine) (text : String) (meta : List (String × Value))
    (ts : Nat) : EventD :=
  let parsed := e.parse text
  { command := text, text := normalizeSeparators text,
    template := parsed.template, normalized_template := parsed.normalized_template,
    vars := parsed.vars, meta := meta, timestamp := ts }

/-- `deque(maxlen=cap).append`: append, evicting the oldest element when
the capacity is reached. -/
def pushBounded (cap : Nat) (h : List EventD) (x : EventD) : List EventD :=
  (h ++ [x]).rtake cap

/-- `Counter` increment. -/
def bump (m : String → Nat) (k : String) : String → Nat :=
  fun s => if s = k then m k + 1 else m s

/-- The routing loop of `handle`: first predicate returning true runs
its handler; a predicate or handler exception becomes the dict
`{"error": str(e)}` and stops the scan. -/
def runRoutes : List (Predicate × Handler) → EventD → Value
  | [], _ => .vnone
  | (p, h) :: rest, evt =>
    match p evt with
    | .error msg => .vdict [("error", .vstr msg)]
    | .ok true =>
      match h evt with
      | .ok v => v
      | .error msg => .vdict [("error", .vstr msg)]
    | .ok false => runRoutes rest evt

/-- The dict returned by `handle`. -/
structure HandleResult where
  ok : Bool
  template : Option String
  normalized_template : Option String
  vars : List (String × Value)
  result : Value
  meta : List (String × Value)
  timestamp : Nat

/-- `OmniLinkEngine.handle`: parse, build the event, record history and
metrics, route, and return the fixed-shape result.  Before/after
middleware only log-and-swallow exceptions in the source and so has no
observable effect here. -/
def Engine.handle (e : Engine) (text : String) (meta : List (String × Value))
    (ts : Nat) : Engine × HandleResult :=
  let parsed := e.parse text
  let evt := e.mkEvent text meta ts
  let e2 : Engine :=
    { e with history := pushBounded e.keepHistory e.history evt,
             metrics := bump (bump e.metrics ("handle.calls"))
               ("handle.ok." ++ (if parsed.ok then "True" else "False")) }
  let result := runRoutes e.handlers evt
  (e2, { ok := parsed.ok, template := evt.template,
         normalized_template := evt.normalized_template, vars := evt.vars,
         result := result, meta := meta, timestamp := ts })

/-- A sequence of `handle` calls (text, meta, timestamp each). -/
def Engine.handleAll (e : Engine) :
    List (String × List (String × Value) × Nat) → Engine
  | [] => e
  | (t, m, ts) :: rest => Engine.handleAll (e.handle t m ts).1 rest

/-! ## Derived views of the compiler used in statements -/

/-- The token contents, in order, of a token-chunk stream. -/
def tokContents : List TChunk → List (List Char)
  | [] => []
  | TChunk.tok c :: rest => c :: tokContents rest
  | TChunk.lit _ :: rest => tokContents rest

/-- The token contents of a template, in left-to-right order. -/
def toksOf (tmpl : String) : List (List Char) :=
  tokContents (tokenizeAux [] (normalizeSeparators tmpl).data)

/-- The capture names `_compile_template` assigns, starting from `b`
captures already emitted. -/
def specNames (b : Nat) : List (List Char) → List String
  | [] => []
  | c :: rest => nameOfTok b c :: specNames (b + 1) rest

/-! ## Concrete instances used by the claims -/

/-- Fallback pattern for total extraction from `Except` (never reached
in the uses below, all of which compile successfully). -/
def dummyPattern : CompiledPattern :=
  { template := "", chunks := [], var_names := [], var_types := [], text := "" }

def unwrapCp (r : Except String CompiledPattern) : CompiledPattern :=
  match r with
  | .ok cp => cp
  | .error _ => dummyPattern

/-- Engine holding the chess move template (C1). -/
def engC1 : Engine :=
  ((Engine.empty defaultRegistry 200).addTemplate
    ("move_[color]_[piece]_from_[location1]_to_[location2]")).1

/-- Engine with `go_[x]` registered before `go_[x:int]` (C2). -/
def engGo : Engine :=
  (((Engine.empty defaultRegistry 200).addTemplate ("go_[x]")).1.addTemplate
    ("go_[x:int]")).1

def cpGoX : CompiledPattern := unwrapCp (compileTemplate ("go_[x]") defaultRegistry)

def cpGoInt : CompiledPattern := unwrapCp (compileTemplate ("go_[x:int]") defaultRegistry)

/-- A predicate that raises (C3 witness). -/
def predBoom : Predicate := fun _ => .error ("boom")

def predTrue : Predicate := fun _ => .ok true

def handOk : Handler := fun _ => .ok (.vstr ("done"))

/-- A converter that always raises (C4 witness). -/
def badConv : TypeConverter := fun _ => .error ("nope")

def regBad : TypeRegistry := defaultRegistry.register ("bad") ("[a-z]+") (some badConv)

def engBad : Engine := ((Engine.empty regBad 200).addTemplate ("go_[x:bad]")).1

def cpBad : CompiledPattern := unwrapCp (compileTemplate ("go_[x:bad]") regBad)

/-- Converters distinguishable by their output (C7/C10). -/
def convA : TypeConverter := fun s => .ok (.vstr ("A" ++ s))

def convB : TypeConverter := fun s => .ok (.vstr ("B" ++ s))

/-- Registry with custom type `sq` mapped to `[a-u]+` / `convA`. -/
def regA : TypeRegistry := defaultRegistry.register ("sq") ("[a-u]+") (some convA)

/-- `regA` after re-registering `sq` with a different regex and converter. -/
def regB : TypeRegistry := regA.register ("sq") ("[v-z]+") (some convB)

/-- Engine whose only pattern was compiled while `sq = [a-u]+`. -/
def engOld : Engine := ((Engine.empty regA 200).addTemplate ("p_[x:sq]")).1

def cpSqOld : CompiledPattern := unwrapCp (compileTemplate ("p_[x:sq]") regA)

def cpSqNew : CompiledPattern := unwrapCp (compileTemplate ("p_[x:sq]") regB)

/-- Engine holding the literal-`[]` template (C8). -/
def engBrackets : Engine :=
  ((Engine.empty defaultRegistry 200).addTemplate ("go_[]")).1

/-- Engine holding the `[:]` template (C8 amended). -/
def engColonTok : Engine :=
  ((Engine.empty defaultRegistry 200).addTemplate ("go_[:]")).1

/-- Engine with a named capture before an anonymous one (C9). -/
def engNamedAnon : Engine :=
  ((Engine.empty defaultRegistry 200).addTemplate ("[a]_[:int]")).1

def cpNamedAnon : CompiledPattern :=
  unwrapCp (compileTemplate ("[a]_[:int]") defaultRegistry)

/-- Template-free engine for the history witness (C6). -/
def engHist : Engine := Engine.empty defaultRegistry 200

/-- 201 handle calls with distinct timestamps (C6 witness). -/
def inputsHist : List (String × List (String × Value) × Nat) :=
  (List.range 201).map (fun i => ("ping", ([], i)))

/-! ## Helper lemmas -/

theorem dlookup_map_repl (d : List (String × Value)) (k : String) (v : Value)
    (nm : String) (h : nm ≠ k) :
    dlookup (d.map (fun p => bif p.1 == k then (k, v) else p)) nm = dlookup d nm := by
  induction d with
  | nil => rfl
  | cons q d ih =>
    by_cases hq : q.1 = k
    · have hb : (q.1 == k) = true := beq_iff_eq.mpr hq
      have h1 : (k == nm) = false := beq_eq_false_iff_ne.mpr (Ne.symm h)
      have h2 : (q.1 == nm) = false := by
        rw [hq]
        exact beq_eq_false_iff_ne.mpr (Ne.symm h)
      simp [dlookup, hb, h1, h2, ih]
    · have hb : (q.1 == k) = false := beq_eq_false_iff_ne.mpr hq
      cases hqn : q.1 == nm with
      | true => simp [dlookup, hb, hqn]
      | false => simp [dlookup, hb, hqn, ih]

theorem dlookup_map_repl_self (d : List (String × Value)) (k : String) (v : Value)
    (h : d.any (fun p => p.1 == k) = true) :
    dlookup (d.map (fun p => bif p.1 == k then (k, v) else p)) k = some v := by
  induction d with
  | nil => simp at h
  | cons q d ih =>
    cases hb : q.1 == k with
    | true => simp [dlookup, hb]
    | false =>
      have h2 : d.any (fun p => p.1 == k) = true := by
        simp only [List.any_cons, hb, Bool.false_or] at h
        exact h
      simp [dlookup, hb, ih h2]

theorem dlookup_append_self (d : List (String × Value)) (k : String) (v : Value)
    (h : d.any (fun p => p.1 == k) = false) :
    dlookup (d ++ [(k, v)]) k = some v := by
  induction d with
  | nil => simp [dlookup]
  | cons q d ih =>
    simp only [List.any_cons, Bool.or_eq_false_iff] at h
    simp [dlookup, h.1, ih h.2]

theorem dlookup_append_single (d : List (String × Value)) (k : String) (v : Value)
    (nm : String) (h : nm ≠ k) :
    dlookup (d ++ [(k, v)]) nm = dlookup d nm := by
  induction d with
  | nil =>
    have h1 : (k == nm) = false := beq_eq_false_iff_ne.mpr (Ne.symm h)
    simp [dlookup, h1]
  | cons q d ih =>
    cases hqn : q.1 == nm with
    | true => simp [dlookup, hqn]
    | false => simp [dlookup, hqn, ih]

/-- Inserting a key makes it found with the inserted value. -/
theorem dlookup_dinsert_self (d : List (String × Value)) (k : String) (v : Value) :
    dlookup (dinsert d k v) k = some v := by
  unfold dinsert
  cases h : d.any (fun p => p.1 == k) with
  | true => simp only [if_true]; exact dlookup_map_repl_self d k v h
  | false => simp only [Bool.false_eq_true, if_false]; exact dlookup_append_self d k v h

/-- Inserting a key leaves other keys' lookups unchanged. -/
theorem dlookup_dinsert_ne (d : List (String × Value)) (k : String) (v : Value)
    (nm : String) (h : nm ≠ k) :
    dlookup (dinsert d k v) nm = dlookup d nm := by
  unfold dinsert
  cases hany : d.any (fun p => p.1 == k) with
  | true => simp only [if_true]; exact dlookup_map_repl d k v nm h
  | false => simp only [Bool.false_eq_true, if_false]; exact dlookup_append_single d k v nm h

/-- Captures whose name never occurs leave that name's binding alone. -/
theorem buildVars_preserve (reg : TypeRegistry) :
    ∀ (names : List String) (typs : List (Option String)) (caps : List String)
      (acc : List (String × Value)) (nm : String),
      (∀ i, names.get? i ≠ some nm) →
      dlookup (buildVars reg names typs caps acc) nm = dlookup acc nm := by
  intro names
  induction names with
  | nil => intro typs caps acc nm _; simp [buildVars]
  | cons n ns ih =>
    intro typs caps acc nm h
    cases typs with
    | nil => simp [buildVars]
    | cons t ts =>
      cases caps with
      | nil => simp [buildVars]
      | cons c cs =>
        have hn : nm ≠ n := by
          intro he
          exact h 0 (by simp [he])
        have hrec : ∀ i, ns.get? i ≠ some nm := fun i => h (i + 1)
        have hstep : buildVars reg (n :: ns) (t :: ts) (c :: cs) acc
            = buildVars reg ns ts cs (dinsert acc n (convertVal reg t c)) := rfl
        rw [hstep, ih ts cs _ nm hrec, dlookup_dinsert_ne acc n _ nm hn]

/-- The value bound to the capture at position `k` (when that name does
not recur later) is the best-effort conversion of the `k`-th capture. -/
theorem buildVars_at (reg : TypeRegistry) :
    ∀ (k : Nat) (names : List String) (typs : List (Option String))
      (caps : List String) (acc : List (String × Value))
      (name : String) (typ : Option String) (raw : String),
      names.get? k = some name → typs.get? k = some typ → caps.get? k = some raw →
      (∀ j, k < j → names.get? j ≠ some name) →
      dlookup (buildVars reg names typs caps acc) name
        = some (convertVal reg typ raw) := by
  intro k
  induction k with
  | zero =>
    intro names typs caps acc name typ raw hn ht hc hlast
    cases names with
    | nil => simp at hn
    | cons n ns =>
      cases typs with
      | nil => simp at ht
      | cons t ts =>
        cases caps with
        | nil => simp at hc
        | cons c cs =>
          simp only [List.get?] at hn ht hc
          injection hn with hn2
          injection ht with ht2
          injection hc with hc2
          subst hn2
          subst ht2
          subst hc2
          have hrec : ∀ i, ns.get? i ≠ some n := by
            intro i
            exact hlast (i + 1) (Nat.succ_pos i)
          have hstep : buildVars reg (n :: ns) (t :: ts) (c :: cs) acc
              = buildVars reg ns ts cs (dinsert acc n (convertVal reg t c)) := rfl
          rw [hstep, buildVars_preserve reg ns ts cs _ n hrec,
            dlookup_dinsert_self]
  | succ k ih =>
    intro names typs caps acc name typ raw hn ht hc hlast
    cases names with
    | nil => simp at hn
    | cons n ns =>
      cases typs with
      | nil => simp at ht
      | cons t ts =>
        cases caps with
        | nil => simp at hc
        | cons c cs =>
          have hrec : ∀ j, k < j → ns.get? j ≠ some name := by
            intro j hj
            exact hlast (j + 1) (Nat.succ_lt_succ hj)
          exact ih ns ts cs (dinsert acc n (convertVal reg t c)) name typ raw hn ht hc hrec

/-- `parse` scans in registration order: when position `i` matches and
all earlier positions do not, the scan stops at position `i`. -/
theorem firstMatch_at :
    ∀ (l : List CompiledPattern) (s : List Char) (i : Nat) (cp : CompiledPattern),
      l.get? i = some cp →
      (matchChunks cp.chunks s).isSome = true →
      (∀ j cpj, j < i → l.get? j = some cpj → matchChunks cpj.chunks s = none) →
      ∃ caps, firstMatch l s = some (cp, caps) := by
  intro l
  induction l with
  | nil => intro s i cp h; simp at h
  | cons c0 rest ih =>
    intro s i cp hget hm hprev
    cases i with
    | zero =>
      simp only [List.get?] at hget
      injection hget with hget2
      subst hget2
      cases hmc : matchChunks c0.chunks s with
      | none => rw [hmc] at hm; simp at hm
      | some caps =>
        refine ⟨caps, ?_⟩
        simp [firstMatch, hmc]
    | succ i =>
      have h0 : matchChunks c0.chunks s = none :=
        hprev 0 c0 (Nat.succ_pos i) rfl
      have hrec := ih s i cp hget hm
        (fun j cpj hj hg => hprev (j + 1) cpj (Nat.succ_lt_succ hj) hg)
      simpa [firstMatch, h0] using hrec

/-- Routes whose predicates return false are skipped without effect. -/
theorem runRoutes_skip :
    ∀ (pre rest : List (Predicate × Handler)) (evt : EventD),
      (∀ q ∈ pre, q.1 evt = .ok false) →
      runRoutes (pre ++ rest) evt = runRoutes rest evt := by
  intro pre
  induction pre with
  | nil => intro rest evt _; rfl
  | cons q0 pre ih =>
    intro rest evt h
    have h0 : q0.1 evt = .ok false := h q0 (List.mem_cons_self q0 pre)
    have hrec := ih rest evt (fun q hq => h q (List.mem_cons_of_mem q0 hq))
    calc runRoutes ((q0 :: pre) ++ rest) evt
        = runRoutes (pre ++ rest) evt := by
          rcases q0 with ⟨p0, h0f⟩
          have h0b : p0 evt = Except.ok false := h0
          simp only [List.cons_append, runRoutes, h0b]
          rfl
      _ = runRoutes rest evt := hrec

/-- The capture names produced by the compile loop are the synthetic
assignment applied to the remaining tokens, appended to those already
accumulated. -/
theorem compileToks_names (reg : TypeRegistry) (tmpl : String) :
    ∀ (toks : List TChunk) (accC : List ChunkS) (accN : List String)
      (accT : List (Option String))
      (out : List ChunkS × List String × List (Option String)),
      compileToks reg tmpl toks accC accN accT = .ok out →
      out.2.1 = accN.reverse ++ specNames accN.length (tokContents toks) := by
  intro toks
  induction toks with
  | nil =>
    intro accC accN accT out h
    simp only [compileToks] at h
    injection h with h2
    subst h2
    simp [tokContents, specNames]
  | cons tc rest ih =>
    intro accC accN accT out h
    cases tc with
    | lit s =>
      simp only [compileToks] at h
      have := ih _ _ _ _ h
      simpa [tokContents] using this
    | tok content =>
      simp only [compileToks] at h
      cases hcap : capRxOf reg tmpl content with
      | error msg => rw [hcap] at h; exact absurd h (by simp)
      | ok rx =>
        rw [hcap] at h
        have hrec := ih _ _ _ _ h
        rw [hrec]
        simp [tokContents, specNames, List.append_assoc]

/-- The compile loop fails as soon as a token references an unregistered
type (and the message names the template). -/
theorem compileToks_unknown (reg : TypeRegistry) (tmpl : String) :
    ∀ (toks : List TChunk) (accC : List ChunkS) (accN : List String)
      (accT : List (Option String)),
      (∃ content, TChunk.tok content ∈ toks ∧ (parseToken content).2.2 = none ∧
        ∃ t, (parseToken content).2.1 = some t ∧ reg.get t = none) →
      ∃ t, compileToks reg tmpl toks accC accN accT = .error (unknownTypeMsg t tmpl) := by
  intro toks
  induction toks with
  | nil =>
    intro accC accN accT h
    obtain ⟨content, hmem, _⟩ := h
    simp at hmem
  | cons tc rest ih =>
    intro accC accN accT h
    obtain ⟨content, hmem, hno, t, hty, hget⟩ := h
    cases tc with
    | lit s =>
      have hmem2 : TChunk.tok content ∈ rest := by
        rcases List.mem_cons.mp hmem with he | hm
        · exact absurd he (by simp)
        · exact hm
      have := ih (ChunkS.lit (String.mk s) :: accC) accN accT
        ⟨content, hmem2, hno, t, hty, hget⟩
      simpa [compileToks] using this
    | tok c0 =>
      by_cases he : c0 = content
      · subst he
        have hcap : capRxOf reg tmpl c0 = .error (unknownTypeMsg t tmpl) := by
          unfold capRxOf
          rcases hpt : parseToken c0 with ⟨n?, t?, r?⟩
          rw [hpt] at hno hty
          simp only at hno hty
          subst hno
          subst hty
          dsimp only
          rw [hget]
        refine ⟨t, ?_⟩
        simp [compileToks, hcap]
      · have hmem2 : TChunk.tok content ∈ rest := by
          rcases List.mem_cons.mp hmem with h2 | hm
          · injection h2 with h3
            exact absurd h3.symm he
          · exact hm
        cases hcap : capRxOf reg tmpl c0 with
        | error msg =>
          have hmsg : ∃ t3, msg = unknownTypeMsg t3 tmpl := by
            unfold capRxOf at hcap
            rcases hpt : parseToken c0 with ⟨n?, t?, r?⟩
            rw [hpt] at hcap
            cases r? with
            | some rx => simp at hcap
            | none =>
              cases t? with
              | none => simp at hcap
              | some tt =>
                dsimp only at hcap
                cases hg : reg.get tt with
                | some sp => rw [hg] at hcap; simp at hcap
                | none =>
                  rw [hg] at hcap
                  simp only [Except.error.injEq] at hcap
                  exact ⟨tt, hcap.symm⟩
          obtain ⟨t3, ht3⟩ := hmsg
          refine ⟨t3, ?_⟩
          simp [compileToks, hcap, ht3]
        | ok rx =>
          obtain ⟨t2, ht2⟩ := ih (ChunkS.grpS rx :: accC)
            (nameOfTok accN.length c0 :: accN) ((parseToken c0).2.1 :: accT)
            ⟨content, hmem2, hno, t, hty, hget⟩
          refine ⟨t2, ?_⟩
          simpa [compileToks, hcap] using ht2

/-- Indexing into the synthetic-name assignment. -/
theorem specNames_get :
    ∀ (l : List (List Char)) (b k : Nat),
      (specNames b l).get? k = (l.get? k).map (fun c => nameOfTok (b + k) c) := by
  intro l
  induction l with
  | nil => intro b k; simp [specNames]
  | cons c rest ih =>
    intro b k
    cases k with
    | zero => simp [specNames]
    | succ k =>
      simp only [specNames, List.get?]
      rw [ih (b + 1) k]
      have harith : b + 1 + k = b + (k + 1) := by omega
      rw [harith]

theorem length_rtake_le {α : Type} (l : List α) (n : Nat) : (l.rtake n).length ≤ n := by
  simp only [List.rtake, List.length_drop]
  omega

theorem rtake_of_le {α : Type} (l : List α) (n : Nat) (h : l.length ≤ n) :
    l.rtake n = l := by
  simp [List.rtake, Nat.sub_eq_zero_of_le h]

theorem take_append_take {α : Type} (a b : List α) (n : Nat) :
    (a ++ b.take n).take n = (a ++ b).take n := by
  rw [List.take_append_eq_append_take, List.take_append_eq_append_take, List.take_take]
  congr 2
  exact Nat.min_eq_left (Nat.sub_le n a.length)

/-- Trimming to the last `n`, appending, and trimming again is the same
as trimming the whole concatenation (the deque-eviction absorption law). -/
theorem rtake_absorb {α : Type} (l m : List α) (n : Nat) :
    ((l.rtake n) ++ m).rtake n = (l ++ m).rtake n := by
  simp only [List.rtake_eq_reverse_take_reverse, List.reverse_append, List.reverse_reverse]
  rw [take_append_take]

/-- One `handle` call: the returned dict, written via `parse` and the
routing loop. -/
theorem handle_result_eq (e : Engine) (text : String) (meta : List (String × Value))
    (ts : Nat) :
    (e.handle text meta ts).2 =
      { ok := (e.parse text).ok, template := (e.parse text).template,
        normalized_template := (e.parse text).normalized_template,
        vars := (e.parse text).vars,
        result := runRoutes e.handlers (e.mkEvent text meta ts),
        meta := meta, timestamp := ts } := rfl

/-- `handle` only changes history and metrics. -/
theorem handle_static (e : Engine) (t : String) (m : List (String × Value)) (ts : Nat) :
    (e.handle t m ts).1.types = e.types
    ∧ (e.handle t m ts).1.compiled = e.compiled
    ∧ (e.handle t m ts).1.handlers = e.handlers
    ∧ (e.handle t m ts).1.keepHistory = e.keepHistory
    ∧ (e.handle t m ts).1.history
        = pushBounded e.keepHistory e.history (e.mkEvent t m ts) :=
  ⟨rfl, rfl, rfl, rfl, rfl⟩

/-- After any sequence of `handle` calls the history is the last
`keepHistory` of the initial history followed by the per-call events. -/
theorem handleAll_history :
    ∀ (inputs : List (String × List (String × Value) × Nat)) (e : Engine),
      e.history.length ≤ e.keepHistory →
      (e.handleAll inputs).history
        = (e.history ++ inputs.map (fun i => e.mkEvent i.1 i.2.1 i.2.2)).rtake e.keepHistory := by
  intro inputs
  induction inputs with
  | nil =>
    intro e he
    calc (e.handleAll []).history = e.history := rfl
      _ = ((e.history ++ ([] : List (String × List (String × Value) × Nat)).map
            (fun i => e.mkEvent i.1 i.2.1 i.2.2)).rtake e.keepHistory) := by
          rw [List.map_nil, List.append_nil, rtake_of_le _ _ he]
  | cons i rest ih =>
    intro e he
    rcases i with ⟨t, m, ts⟩
    have hlen : (e.handle t m ts).1.history.length ≤ (e.handle t m ts).1.keepHistory := by
      have h1 : (e.handle t m ts).1.history
          = (e.history ++ [e.mkEvent t m ts]).rtake e.keepHistory := rfl
      have h2 : (e.handle t m ts).1.keepHistory = e.keepHistory := rfl
      rw [h1, h2]
      exact length_rtake_le _ _
    calc (e.handleAll ((t, m, ts) :: rest)).history
        = ((e.handle t m ts).1.handleAll rest).history := rfl
      _ = ((e.handle t m ts).1.history
            ++ rest.map (fun i => (e.handle t m ts).1.mkEvent i.1 i.2.1 i.2.2)).rtake
              (e.handle t m ts).1.keepHistory := ih _ hlen
      _ = ((e.history ++ [e.mkEvent t m ts]).rtake e.keepHistory
            ++ rest.map (fun i => e.mkEvent i.1 i.2.1 i.2.2)).rtake e.keepHistory := rfl
      _ = ((e.history ++ [e.mkEvent t m ts])
            ++ rest.map (fun i => e.mkEvent i.1 i.2.1 i.2.2)).rtake e.keepHistory :=
          rtake_absorb _ _ _
      _ = (e.history ++ ((t, m, ts) :: rest).map
            (fun i => e.mkEvent i.1 i.2.1 i.2.2)).rtake e.keepHistory := by
          rw [List.map_cons, List.append_assoc, List.singleton_append]

/-! ## Claims -/

/-- C1: on the engine holding the registered template
`move_[color]_[piece]_from_[location1]_to_[location2]`, `parse` of
`move_white_knight_from_c2_to_c3` is matched with vars exactly
`{color: white, piece: knight, location1: c2, location2: c3}`; the
second conjunct shows captured values keep their original case (a
mixed-case input is matched case-insensitively but captured verbatim). -/
theorem c1_move_parse :
    engC1.parse ("move_white_knight_from_c2_to_c3")
      = { ok := true,
          template := some ("move_[color]_[piece]_from_[location1]_to_[location2]"),
          normalized_template := some ("move_[color]_[piece]_from_[location1]_to_[location2]"),
          vars := [("color", Value.vstr ("white")), ("piece", Value.vstr ("knight")),
                   ("location1", Value.vstr ("c2")), ("location2", Value.vstr ("c3"))] }
    ∧ (engC1.parse ("move_White_Knight_from_C2_to_C3")).vars
      = [("color", Value.vstr ("White")), ("piece", Value.vstr ("Knight")),
         ("location1", Value.vstr ("C2")), ("location2", Value.vstr ("C3"))] := by
  exact ⟨rfl, rfl⟩

/-- C2: for every engine state and input, if the pattern at position `i`
matches the normalized text and no earlier-registered pattern does,
`parse` reports pattern `i` — registration order is the tie-break. -/
theorem c2_first_registered_wins (e : Engine) (t : String) (i : Nat)
    (cp : CompiledPattern)
    (hcp : e.compiled.get? i = some cp)
    (hm : (matchChunks cp.chunks (normalizeSeparators t).data).isSome = true)
    (hprev : ∀ j cpj, j < i → e.compiled.get? j = some cpj →
      matchChunks cpj.chunks (normalizeSeparators t).data = none) :
    (e.parse t).ok = true ∧ (e.parse t).template = some cp.template := by
  obtain ⟨caps, hfm⟩ :=
    firstMatch_at e.compiled (normalizeSeparators t).data i cp hcp hm hprev
  unfold Engine.parse
  rw [hfm]
  exact ⟨rfl, rfl⟩

/-- C2 witness: with `go_[x]` registered before `go_[x:int]`, the input
`go_7` (which both templates match — last conjunct) is reported as
`go_[x]`. -/
theorem c2_witness :
    (engGo.parse ("go_7")).ok = true
    ∧ (engGo.parse ("go_7")).template = some ("go_[x]")
    ∧ (matchChunks cpGoInt.chunks (normalizeSeparators ("go_7")).data).isSome = true := by
  have h := c2_first_registered_wins engGo ("go_7") 0 cpGoX rfl rfl
    (fun j cpj hj _ => absurd hj (Nat.not_lt_zero j))
  exact ⟨h.1, h.2, rfl⟩

/-- C3: `handle` always returns the fixed-shape result (ok, template,
normalizedTemplate, vars, meta, timestamp come from the parse, the call
arguments and the clock — it is a total function, so no exception ever
reaches the caller); when every earlier route's predicate returns false
and one route's predicate or handler raises, the `result` field is the
structured dict `{error: message}`, and the outcome is identical for any
list of later routes (routing stopped at the raising route). -/
theorem c3_handle_error_contract (e : Engine) (text : String)
    (meta : List (String × Value)) (ts : Nat)
    (pre post post2 : List (Predicate × Handler)) (p : Predicate) (h : Handler)
    (msg : String)
    (hpre : ∀ q ∈ pre, q.1 (e.mkEvent text meta ts) = .ok false)
    (hfail : p (e.mkEvent text meta ts) = .error msg ∨
      (p (e.mkEvent text meta ts) = .ok true ∧ h (e.mkEvent text meta ts) = .error msg)) :
    (({ e with handlers := pre ++ (p, h) :: post } : Engine).handle text meta ts).2.result
      = Value.vdict [("error", Value.vstr msg)]
    ∧ (({ e with handlers := pre ++ (p, h) :: post } : Engine).handle text meta ts).2
      = (({ e with handlers := pre ++ (p, h) :: post2 } : Engine).handle text meta ts).2
    ∧ (({ e with handlers := pre ++ (p, h) :: post } : Engine).handle text meta ts).2.ok
      = (e.parse text).ok
    ∧ (({ e with handlers := pre ++ (p, h) :: post } : Engine).handle text meta ts).2.template
      = (e.parse text).template
    ∧ (({ e with handlers := pre ++ (p, h) :: post } : Engine).handle text meta ts).2.normalized_template
      = (e.parse text).normalized_template
    ∧ (({ e with handlers := pre ++ (p, h) :: post } : Engine).handle text meta ts).2.vars
      = (e.parse text).vars
    ∧ (({ e with handlers := pre ++ (p, h) :: post } : Engine).handle text meta ts).2.meta
      = meta
    ∧ (({ e with handlers := pre ++ (p, h) :: post } : Engine).handle text meta ts).2.timestamp
      = ts := by
  have hrr : ∀ post' : List (Predicate × Handler),
      runRoutes (pre ++ (p, h) :: post') (e.mkEvent text meta ts)
        = Value.vdict [("error", Value.vstr msg)] := by
    intro post'
    rw [runRoutes_skip pre ((p, h) :: post') (e.mkEvent text meta ts) hpre]
    rcases hfail with hf | ⟨hp, hf⟩
    · simp [runRoutes, hf]
    · simp [runRoutes, hp, hf]
  refine ⟨?_, ?_, rfl, rfl, rfl, rfl, rfl, rfl⟩
  · show runRoutes (pre ++ (p, h) :: post) (e.mkEvent text meta ts)
      = Value.vdict [("error", Value.vstr msg)]
    exact hrr post
  · have h1 : runRoutes (pre ++ (p, h) :: post) (e.mkEvent text meta ts)
        = runRoutes (pre ++ (p, h) :: post2) (e.mkEvent text meta ts) := by
      rw [hrr post, hrr post2]
    show ({ ok := (e.parse text).ok, template := (e.parse text).template,
            normalized_template := (e.parse text).normalized_template,
            vars := (e.parse text).vars,
            result := runRoutes (pre ++ (p, h) :: post) (e.mkEvent text meta ts),
            meta := meta, timestamp := ts } : HandleResult)
      = { ok := (e.parse text).ok, template := (e.parse text).template,
          normalized_template := (e.parse text).normalized_template,
          vars := (e.parse text).vars,
          result := runRoutes (pre ++ (p, h) :: post2) (e.mkEvent text meta ts),
          meta := meta, timestamp := ts }
    rw [h1]

/-- C3 witness: a raising predicate produces the `{error: boom}` result,
identically with or without a further (viable) route behind it. -/
theorem c3_witness :
    (({ Engine.empty defaultRegistry 200 with
        handlers := [] ++ (predBoom, handOk) :: [(predTrue, handOk)] } : Engine).handle
          ("hi") [] 0).2.result
      = Value.vdict [("error", Value.vstr ("boom"))]
    ∧ (({ Engine.empty defaultRegistry 200 with
        handlers := [] ++ (predBoom, handOk) :: [(predTrue, handOk)] } : Engine).handle
          ("hi") [] 0).2
      = (({ Engine.empty defaultRegistry 200 with
        handlers := [] ++ (predBoom, handOk) :: [] } : Engine).handle ("hi") [] 0).2 := by
  have h := c3_handle_error_contract (Engine.empty defaultRegistry 200) ("hi") [] 0
    [] [(predTrue, handOk)] [] predBoom handOk ("boom")
    (fun q hq => absurd hq (List.not_mem_nil q))
    (Or.inl rfl)
  exact ⟨h.1, h.2.1⟩

/-- C4: when the first matching pattern has a typed capture whose
converter raises on the captured string, `parse` still succeeds and the
raw captured string is kept verbatim as that variable's value. -/
theorem c4_conversion_fallback (e : Engine) (t : String) (cp : CompiledPattern)
    (caps : List String) (k : Nat) (name typT raw rx : String)
    (conv : TypeConverter) (msg : String)
    (hfm : firstMatch e.compiled (normalizeSeparators t).data = some (cp, caps))
    (hn : cp.var_names.get? k = some name)
    (ht : cp.var_types.get? k = some (some typT))
    (hc : caps.get? k = some raw)
    (hreg : e.types.get typT = some (rx, some conv))
    (hconv : conv raw = .error msg)
    (hlast : ∀ j, k < j → cp.var_names.get? j ≠ some name) :
    (e.parse t).ok = true
    ∧ dlookup (e.parse t).vars name = some (Value.vstr raw) := by
  have hcv : convertVal e.types (some typT) raw = Value.vstr raw := by
    unfold convertVal
    dsimp only
    rw [hreg]
    dsimp only
    rw [hconv]
  have hbv := buildVars_at e.types k cp.var_names cp.var_types caps [] name
    (some typT) raw hn ht hc hlast
  unfold Engine.parse
  rw [hfm]
  refine ⟨rfl, ?_⟩
  dsimp only
  rw [hbv, hcv]

/-- C4 witness: type `bad` has a converter that always raises; parsing
`go_abc` against `go_[x:bad]` still matches and binds `x` to the raw
string `abc`. -/
theorem c4_witness :
    (engBad.parse ("go_abc")).ok = true
    ∧ dlookup (engBad.parse ("go_abc")).vars ("x") = some (Value.vstr ("abc")) := by
  have hlast : ∀ j, 0 < j → cpBad.var_names.get? j ≠ some ("x") := by
    intro j hj hcon
    match j, hj with
    | j + 1, _ =>
      have hnone : cpBad.var_names.get? (j + 1) = none := by
        show (["x"] : List String).get? (j + 1) = none
        simp
      rw [hnone] at hcon
      exact Option.noConfusion hcon
  exact c4_conversion_fallback engBad ("go_abc") cpBad ["abc"] 0 ("x") ("bad") ("abc")
    ("[a-z]+") badConv ("nope") rfl rfl rfl rfl rfl rfl hlast

/-- C5: a template containing a token whose type name is not registered
makes `addTemplate` fail with the unknown-type error naming the
offending template, and the engine (its compiled-pattern list and
template list included) is exactly as before the call. -/
theorem c5_unknown_type (e : Engine) (tmpl : String)
    (hbad : ∃ content,
      TChunk.tok content ∈ tokenizeAux [] (normalizeSeparators tmpl).data ∧
      (parseToken content).2.2 = none ∧
      ∃ t, (parseToken content).2.1 = some t ∧ e.types.get t = none) :
    (e.addTemplate tmpl).1 = e
    ∧ ∃ t, (e.addTemplate tmpl).2 = some (unknownTypeMsg t tmpl) := by
  obtain ⟨t, hct⟩ := compileToks_unknown e.types tmpl
    (tokenizeAux [] (normalizeSeparators tmpl).data) [] [] [] hbad
  have hcomp : compileTemplate tmpl e.types = .error (unknownTypeMsg t tmpl) := by
    unfold compileTemplate
    dsimp only
    rw [hct]
  constructor
  · unfold Engine.addTemplate
    rw [hcomp]
  · refine ⟨t, ?_⟩
    unfold Engine.addTemplate
    rw [hcomp]

/-- C5 witness: adding `go_[x:nosuch]` to a fresh engine fails with the
unknown-type message and leaves the engine unchanged. -/
theorem c5_witness :
    ((Engine.empty defaultRegistry 200).addTemplate ("go_[x:nosuch]")).1
      = Engine.empty defaultRegistry 200
    ∧ ∃ t, ((Engine.empty defaultRegistry 200).addTemplate ("go_[x:nosuch]")).2
      = some (unknownTypeMsg t ("go_[x:nosuch]")) := by
  apply c5_unknown_type
  refine ⟨("x:nosuch").data, ?_, rfl, ("nosuch"), rfl, rfl⟩
  show TChunk.tok (("x:nosuch").data)
    ∈ tokenizeAux [] (normalizeSeparators ("go_[x:nosuch]")).data
  decide

/-- C6: with the default capacity 200 and an initially empty history,
the history never exceeds 200 events; after exactly 201 `handle` calls
it equals the 201 per-call events with the first (oldest) dropped —
FIFO eviction — so the first call's event, when distinct from the
others, is no longer present. -/
theorem c6_history_bound (e : Engine) (hcap : e.keepHistory = 200)
    (hh : e.history = [])
    (inputs : List (String × List (String × Value) × Nat)) :
    (e.handleAll inputs).history.length ≤ 200
    ∧ (inputs.length = 201 →
        (e.handleAll inputs).history
          = (inputs.map (fun i => e.mkEvent i.1 i.2.1 i.2.2)).drop 1)
    ∧ (∀ ev, inputs.length = 201 →
        ev ∉ (inputs.map (fun i => e.mkEvent i.1 i.2.1 i.2.2)).drop 1 →
        ev ∉ (e.handleAll inputs).history) := by
  have hle : e.history.length ≤ e.keepHistory := by
    rw [hh, hcap]
    simp
  have hmain := handleAll_history inputs e hle
  rw [hh] at hmain
  simp only [List.nil_append] at hmain
  have heq : inputs.length = 201 →
      (e.handleAll inputs).history
        = (inputs.map (fun i => e.mkEvent i.1 i.2.1 i.2.2)).drop 1 := by
    intro h201
    have hlen : (inputs.map (fun i => e.mkEvent i.1 i.2.1 i.2.2)).length = 201 := by
      rw [List.length_map]
      exact h201
    rw [hmain, hcap]
    simp only [List.rtake, hlen]
  refine ⟨?_, heq, ?_⟩
  · rw [hmain, hcap]
    exact length_rtake_le _ _
  · intro ev h201 hnotin hmem
    rw [heq h201] at hmem
    exact hnotin hmem

/-- C6 witness: a concrete engine with capacity 200, driven by 201
calls with distinct timestamps. -/
theorem c6_witness :
    (engHist.handleAll inputsHist).history.length ≤ 200
    ∧ (engHist.handleAll inputsHist).history
      = (inputsHist.map (fun i => engHist.mkEvent i.1 i.2.1 i.2.2)).drop 1 := by
  have h := c6_history_bound engHist rfl rfl inputsHist
  have hlen : inputsHist.length = 201 := by
    simp [inputsHist]
  exact ⟨h.1, h.2.1 hlen⟩

/-- C7: the match-regex is frozen at compile time.  First conjunct: for
EVERY engine, replacing the registry (e.g. re-registering a type with a
different regex) never changes which template `parse` reports — matching
uses only the compiled patterns.  Remaining conjuncts: the pattern for
`p_[x:sq]` compiled while `sq = [a-u]+` matches `p_abc` and not `p_wxy`,
while the same template compiled after re-registering `sq = [v-z]+`
matches `p_wxy` and not `p_abc` — subsequent compiles use the new regex. -/
theorem c7_regex_frozen_at_compile :
    (∀ (e : Engine) (reg2 : TypeRegistry) (t : String),
        (({ e with types := reg2 } : Engine).parse t).ok = (e.parse t).ok
      ∧ (({ e with types := reg2 } : Engine).parse t).template = (e.parse t).template
      ∧ (({ e with types := reg2 } : Engine).parse t).normalized_template
          = (e.parse t).normalized_template)
    ∧ (matchChunks cpSqOld.chunks (normalizeSeparators ("p_abc")).data).isSome = true
    ∧ matchChunks cpSqNew.chunks (normalizeSeparators ("p_abc")).data = none
    ∧ (matchChunks cpSqNew.chunks (normalizeSeparators ("p_wxy")).data).isSome = true
    ∧ matchChunks cpSqOld.chunks (normalizeSeparators ("p_wxy")).data = none := by
  refine ⟨?_, rfl, rfl, rfl, rfl⟩
  intro e reg2 t
  unfold Engine.parse
  dsimp only
  cases hfm : firstMatch e.compiled (normalizeSeparators t).data with
  | none => exact ⟨rfl, rfl, rfl⟩
  | some pr =>
    rcases pr with ⟨cp, caps⟩
    exact ⟨rfl, rfl, rfl⟩

/-- C7 witness: the general registry-replacement invariance applied to
the concrete `sq` re-registration. -/
theorem c7_witness :
    ((({ engOld with types := regB } : Engine).parse ("p_abc")).ok
      = (engOld.parse ("p_abc")).ok)
    ∧ ((({ engOld with types := regB } : Engine).parse ("p_abc")).template
      = (engOld.parse ("p_abc")).template) := by
  have h := c7_regex_frozen_at_compile.1 engOld regB ("p_abc")
  exact ⟨h.1, h.2.1⟩

/-- C8 counterexample: the token scanner `\[([^\]]+)\]` requires
non-empty bracket contents, so `[]` in a template is NOT a token: it is
escaped into the literal pattern, producing no capturing group —
`go_[]` compiles to a pure literal with no captures, fails on `go_x`
and matches only the literal text `go_[]` (with empty vars). -/
theorem c8_counterexample :
    compileTemplate ("go_[]") defaultRegistry
      = .ok { template := "go_[]", chunks := [Chunk.lit ("go_[]")],
              var_names := [], var_types := [], text := "go_[]" }
    ∧ (engBrackets.parse ("go_x")).ok = false
    ∧ (engBrackets.parse ("go_[]")).ok = true
    ∧ (engBrackets.parse ("go_[]")).vars = [] := by
  exact ⟨rfl, rfl, rfl, rfl⟩

/-- C8 amended: a template containing `[]` treats it as literal text
with no capture at that position; an anonymous capture using the default
token regex (one group matching one or more non-underscore characters)
arises instead from a non-empty token whose name and type are both
empty, such as `[:]`. -/
theorem c8_amended :
    compileTemplate ("go_[]") defaultRegistry
      = .ok { template := "go_[]", chunks := [Chunk.lit ("go_[]")],
              var_names := [], var_types := [], text := "go_[]" }
    ∧ compileTemplate ("go_[:]") defaultRegistry
      = .ok { template := "go_[:]",
              chunks := [Chunk.lit ("go_"),
                Chunk.grp (Regex.cat (Regex.cls true [CItem.ch '_'])
                  (Regex.star (Regex.cls true [CItem.ch '_']))),
                Chunk.lit ("")],
              var_names := ["var1"], var_types := [none], text := "go_[:]" }
    ∧ parseRegexStr defaultTokenRx
      = some (Regex.cat (Regex.cls true [CItem.ch '_'])
          (Regex.star (Regex.cls true [CItem.ch '_'])))
    ∧ (engColonTok.parse ("go_HI")).ok = true
    ∧ (engColonTok.parse ("go_HI")).vars = [("var1", Value.vstr ("HI"))] := by
  exact ⟨rfl, rfl, rfl, rfl, rfl⟩

/-- C9 counterexample: in `[a]_[:int]` the only anonymous capture is the
SECOND capture overall, and it is named `var2`, not `var1`: the
synthetic index counts all captures (named ones included), not only the
anonymous ones. -/
theorem c9_counterexample :
    engNamedAnon.compiled.map (fun cp => cp.var_names) = [["a", "var2"]]
    ∧ (["a", "var2"] : List String).get? 1 ≠ some ("var1") := by
  refine ⟨rfl, ?_⟩
  decide

/-- C9 amended: an anonymous capture occupying overall capture position
`k` (0-based, counting named and anonymous captures alike) is assigned
the synthetic name `var(k+1)`; the numbering is NOT a separate counter
over anonymous captures only. -/
theorem c9_amended_names (tmpl : String) (reg : TypeRegistry) (cp : CompiledPattern)
    (hok : compileTemplate tmpl reg = .ok cp) (k : Nat) (content : List Char)
    (hc : (toksOf tmpl).get? k = some content)
    (hanon : (parseToken content).1 = none) :
    cp.var_names.get? k = some ("var" ++ toString (k + 1)) := by
  unfold compileTemplate at hok
  dsimp only at hok
  cases hct : compileToks reg tmpl (tokenizeAux [] (normalizeSeparators tmpl).data) [] [] [] with
  | error msg =>
    rw [hct] at hok
    exact absurd hok (by simp)
  | ok out =>
    rw [hct] at hok
    rcases out with ⟨cs, names, typs⟩
    dsimp only at hok
    cases hrc : resolveChunks cs with
    | error msg =>
      rw [hrc] at hok
      exact absurd hok (by simp)
    | ok chunks =>
      rw [hrc] at hok
      dsimp only at hok
      injection hok with hok2
      subst hok2
      show names.get? k = some ("var" ++ toString (k + 1))
      have hnames := compileToks_names reg tmpl
        (tokenizeAux [] (normalizeSeparators tmpl).data) [] [] [] (cs, names, typs) hct
      dsimp only at hnames
      rw [hnames]
      simp only [List.reverse_nil, List.nil_append, List.length_nil]
      rw [specNames_get]
      unfold toksOf at hc
      rw [hc]
      rw [Nat.zero_add]
      unfold nameOfTok
      simp only [Option.map_some']
      rw [hanon]

/-- C9 amended witness: in `[a]_[:int]` the anonymous capture sits at
overall position 1 and is named `var2`. -/
theorem c9_amended_witness :
    cpNamedAnon.var_names.get? 1 = some ("var" ++ toString 2) := by
  exact c9_amended_names ("[a]_[:int]") defaultRegistry cpNamedAnon rfl 1
    ((":int").data) rfl rfl

/-- C10: typed-capture converters are looked up in the registry at parse
time, not resolved at compile time.  For ANY re-registration of `sq`
(arbitrary new regex `rx2` and converter `conv2`), the pattern compiled
under the old registry still matches `p_abc` (old regex frozen) but the
value bound to `x` is produced by the NEW converter. -/
theorem c10_converter_at_parse_time (rx2 : String) (conv2 : TypeConverter) :
    ((({ engOld with types := engOld.types.register ("sq") rx2 (some conv2) } : Engine).parse
        ("p_abc")).ok = true)
    ∧ ((({ engOld with types := engOld.types.register ("sq") rx2 (some conv2) } : Engine).parse
        ("p_abc")).template = some ("p_[x:sq]"))
    ∧ (dlookup ((({ engOld with types := engOld.types.register ("sq") rx2 (some conv2) } : Engine).parse
        ("p_abc")).vars) ("x")
      = some (match conv2 ("abc") with | .ok v => v | .error _ => Value.vstr ("abc"))) := by
  have hget : (engOld.types.register ("sq") rx2 (some conv2)).get ("sq")
      = some (rx2, some conv2) := rfl
  have hcv : convertVal (engOld.types.register ("sq") rx2 (some conv2)) (some ("sq")) ("abc")
      = (match conv2 ("abc") with | .ok v => v | .error _ => Value.vstr ("abc")) := by
    unfold convertVal
    dsimp only
    rw [hget]
  refine ⟨rfl, rfl, ?_⟩
  show some (convertVal (engOld.types.register ("sq") rx2 (some conv2)) (some ("sq")) ("abc"))
      = some (match conv2 ("abc") with | .ok v => v | .error _ => Value.vstr ("abc"))
  exact congrArg some hcv

/-- C10 witness: with the new converter `convB` (and a regex that would
NOT match `abc`), the old pattern still matches and `x` is bound to
`convB`'s output. -/
theorem c10_witness :
    ((({ engOld with types := engOld.types.register ("sq") ("[v-z]+") (some convB) } : Engine).parse
        ("p_abc")).ok = true)
    ∧ (dlookup ((({ engOld with types := engOld.types.register ("sq") ("[v-z]+") (some convB) } : Engine).parse
        ("p_abc")).vars) ("x") = some (Value.vstr ("Babc"))) := by
  have h := c10_converter_at_parse_time ("[v-z]+") convB
  exact ⟨h.1, h.2.2⟩
